import Mathlib

/-!
Verification of the `adoc` crawler (`src/crawler.rs`) against its specification.

The crawler is asynchronous Rust.  We embed it shallowly:

* The effectful ingredients are parameters.  `UrlLib` packages the behaviour of
  the external `url` crate (`Url::parse`, `Url::join`, `Url::host_str`), and an
  `HtmlDoc` is the result of the external `scraper` crate parsing one page: the
  texts of its `h1` elements, of its `article` elements, and the `href`
  attributes of its anchors, each in document order.  A network is a function
  giving, per URL, the finite trace of request attempts the transport produced:
  each attempt carries the wall-clock time elapsed since the fetch started when
  the attempt finished, and its outcome.
* The `tokio::sync::Mutex<HashSet<String>>` of visited URLs is a list of
  strings threaded through the functions; the mutex makes the
  contains/insert block atomic, so a concurrent execution is a serialisation
  of those atomic blocks.  The nondeterministic completion order of
  `buffer_unordered` is a `sched` parameter permuting the links.
* Rust string helpers (`str::lines`, `split_whitespace`, `trim`,
  `str::contains`) are re-implemented on `List Char` by structural recursion
  (ASCII whitespace; the claims only involve ASCII inputs).
* `fetch_page_with_client` is called by `crawl_url` but absent from the
  sources; per the spec (§4.2, the fetcher is stateless aside from the shared
  connection pool) it is modelled by the same pipeline as `fetch_page`.
-/

namespace Adoc

/-- Output record, from `struct DocPage` in `src/crawler.rs`. -/
structure DocPage where
  title : String
  content : String
  url : String
  related_links : List String
deriving DecidableEq

/-- Configuration, from `struct CrawlerConfig` in `src/crawler.rs`.
`timeout` is a duration in abstract clock units. -/
structure CrawlerConfig where
  max_retries : Nat
  concurrency : Nat
  timeout : Nat
deriving DecidableEq

/-- One parsed HTML page, as seen through the `scraper` selectors used by
`fetch_page`: texts of `h1` elements, texts of `article` elements, `href`
attributes of `a[href]` elements, each in document order. -/
structure HtmlDoc where
  h1s : List String
  articles : List String
  hrefs : List String
deriving DecidableEq

/-- Interface of the external `url` crate as used by `fetch_page`:
`parse u` is `Url::parse(u).ok()` rendered back to a string, `join b h` is
`Url::parse(b).unwrap().join(h).ok()` rendered to a string, and `host u` is
the host component of an absolute URL (used only to state the domain claims,
mirroring `Url::host_str`). -/
structure UrlLib where
  parse : String → Option String
  join : String → String → Option String
  host : String → Option String

/-! ### Character-list string helpers (Rust `str` operations) -/

/-- ASCII whitespace, the fragment of Rust `char::is_whitespace` the claims
exercise. -/
def isWs (c : Char) : Bool :=
  c == ' ' || c == '\t' || c == '\r' || c == '\n'

/-- Rust `str::lines`: split at newline characters.  (Rust drops one trailing
empty segment and strips `\r`; both differences are erased downstream by
whitespace collapsing and the empty-line filter.) -/
def splitLines : List Char → List (List Char)
  | [] => [[]]
  | c :: cs =>
    if c = '\n' then [] :: splitLines cs
    else
      match splitLines cs with
      | [] => [[c]]
      | l :: ls => (c :: l) :: ls

/-- Accumulating worker for `wordsSeq`; `acc` holds the current word reversed. -/
def wordsSeqAux : List Char → List Char → List (List Char)
  | acc, [] => if acc.isEmpty then [] else [acc.reverse]
  | acc, c :: cs =>
    if isWs c then
      if acc.isEmpty then wordsSeqAux [] cs
      else acc.reverse :: wordsSeqAux [] cs
    else wordsSeqAux (c :: acc) cs

/-- Rust `str::split_whitespace`: maximal whitespace-free runs, empties
dropped. -/
def wordsSeq (l : List Char) : List (List Char) :=
  wordsSeqAux [] l

/-- `Vec::join(sep)`: interleave `sep` between the pieces. -/
def joinSep (sep : List Char) : List (List Char) → List Char
  | [] => []
  | [l] => l
  | l :: ls => l ++ sep ++ joinSep sep ls

/-- Rust `str::trim` (ASCII fragment). -/
def trimSeq (l : List Char) : List Char :=
  ((l.dropWhile isWs).reverse.dropWhile isWs).reverse

/-- Does `s` start with `p`? (Rust `str::starts_with`.) -/
def startsWithSeq : List Char → List Char → Bool
  | [], _ => true
  | _ :: _, [] => false
  | p :: ps, c :: cs => p == c && startsWithSeq ps cs

/-- Does `s` contain `pat` as a contiguous substring? (Rust `str::contains`.) -/
def hasSubSeq (pat : List Char) : List Char → Bool
  | [] => startsWithSeq pat []
  | c :: cs => startsWithSeq pat (c :: cs) || hasSubSeq pat cs

/-- `Crawler::clean_text`: per line, collapse whitespace via
`split_whitespace().join(" ")`, drop lines that became empty, rejoin with
newlines, trim the whole result. -/
def clean_text (s : String) : String :=
  ⟨trimSeq (joinSep ['\n']
      (((splitLines s.data).map (fun l => joinSep [' '] (wordsSeq l))).filter
        (fun l => !l.isEmpty)))⟩

/-- The substring the link filter in `fetch_page` tests for:
`.filter(|url| url.contains("developer.apple.com"))`. -/
def appleDomain : List Char :=
  "developer.apple.com".data

/-! ### Page extraction (`fetch_page` after the HTTP response) -/

/-- The pure tail of `fetch_page`: build the `DocPage` from the parsed
document.  Title/content take the first matching element's cleaned text, or
empty.  `Url::parse(url)?` failing aborts with an error (`none`).  Each href is
resolved against the page URL; resolution failures are silently dropped; the
result is kept iff its string contains `"developer.apple.com"`. -/
def extract (L : UrlLib) (url : String) (doc : HtmlDoc) : Option DocPage :=
  match L.parse url with
  | none => none
  | some _ =>
    some
      { title := ((doc.h1s.head?.map clean_text).getD (""))
        content := ((doc.articles.head?.map clean_text).getD (""))
        url := url
        related_links :=
          (doc.hrefs.filterMap (fun href => L.join url href)).filter
            (fun u => hasSubSeq appleDomain u.data) }

/-! ### Retry with a wall-clock budget (`backoff::future::retry`) -/

/-- One transport attempt: the elapsed time (since the fetch began) at which
the attempt finished, and its outcome — a parsed page on success, the error
cause on failure. -/
abbrev Attempt := Nat × Except String HtmlDoc

/-- `backoff::future::retry` with `ExponentialBackoff` whose
`max_elapsed_time` is `ceiling`: a successful attempt short-circuits; after a
failed attempt the combinator gives up with that failure's cause when the
elapsed time has exceeded the ceiling, and otherwise retries.  (The trace is
finite; in a run of the real code it always ends with a success or with a
failure past the ceiling, so the exhausted-trace fallback repeats the last
cause.) -/
def retry (ceiling : Nat) : List Attempt → Except String HtmlDoc
  | [] => .error ("no attempt was made")
  | (_, .ok d) :: _ => .ok d
  | (t, .error e) :: rest =>
    if ceiling < t then .error e
    else
      match rest with
      | [] => .error e
      | _ :: _ => retry ceiling rest

/-- `Crawler::fetch_page`: retry the GET under the elapsed-time ceiling
`config.timeout`, then extract.  `net url` is the attempt trace the transport
produces for `url`. -/
def fetch_page (L : UrlLib) (cfg : CrawlerConfig) (net : String → List Attempt)
    (url : String) : Except String DocPage :=
  match retry cfg.timeout (net url) with
  | .error e => .error e
  | .ok doc =>
    match extract L url doc with
    | some page => .ok page
    | none => .error ("invalid base URL")

/-! ### The visited registry -/

/-- The mutex-guarded block `{ if visited.contains(u) { skip } else
{ visited.insert(u) } }` as one atomic operation: the spec's
`tryClaim(url) -> bool`, returning the flag and the new registry. -/
def tryClaim (visited : List String) (u : String) : Bool × List String :=
  if u ∈ visited then (false, visited) else (true, u :: visited)

/-- A serialisation of concurrent claimers: apply `tryClaim` for each URL of
`us` in order, collecting each caller's flag. -/
def claimRace : List String → List String → List Bool × List String
  | v, [] => ([], v)
  | v, u :: us =>
    match tryClaim v u with
    | (b, v') =>
      match claimRace v' us with
      | (bs, v'') => (b :: bs, v'')

/-! ### The crawl orchestrator (`Crawler::crawl_url`) -/

/-- Result of the fan-out over the seed's links: the descendant pages in
completion order, the final visited registry, and the URLs for which a fetch
was actually issued. -/
structure FanoutRes where
  pages : List DocPage
  visited : List String
  fetched : List String
deriving DecidableEq

/-- The `buffer_unordered` fan-out body, serialised: for each link, the atomic
claim; an already-claimed link contributes zero pages; otherwise the link is
fetched (`fetch_page_with_client`, modelled as `fetch_page`), a failure being
tolerated with zero pages contributed. -/
def fanout (L : UrlLib) (cfg : CrawlerConfig) (net : String → List Attempt) :
    List String → List String → FanoutRes
  | visited, [] => ⟨[], visited, []⟩
  | visited, link :: rest =>
    if link ∈ visited then fanout L cfg net visited rest
    else
      match fetch_page L cfg net link with
      | .ok page =>
        let r := fanout L cfg net (link :: visited) rest
        ⟨page :: r.pages, r.visited, link :: r.fetched⟩
      | .error _ =>
        let r := fanout L cfg net (link :: visited) rest
        ⟨r.pages, r.visited, link :: r.fetched⟩

/-- Result of one `crawl_url` invocation: `Ok` pages or the propagated seed
error, together with the final visited registry and the URLs fetched. -/
structure CrawlRes where
  result : Except String (List DocPage)
  visited : List String
  fetched : List String

/-- `Crawler::crawl_url`: claim the seed (already claimed ⇒ `Ok []`), fetch it
(failure ⇒ the error propagates), then if `recursive`, fan out over the seed
page's `related_links` in the completion order `sched cfg.concurrency links`
and append the descendants after the seed page. -/
def crawl_url (L : UrlLib) (cfg : CrawlerConfig) (net : String → List Attempt)
    (sched : Nat → List String → List String) (visited : List String)
    (url : String) (recursive : Bool) : CrawlRes :=
  if url ∈ visited then ⟨.ok [], visited, []⟩
  else
    match fetch_page L cfg net url with
    | .error e => ⟨.error e, url :: visited, [url]⟩
    | .ok page =>
      if recursive then
        let r := fanout L cfg net (url :: visited)
          (sched cfg.concurrency page.related_links)
        ⟨.ok (page :: r.pages), r.visited, url :: r.fetched⟩
      else ⟨.ok [page], url :: visited, [url]⟩

/-! ### Concrete instances used by witnesses and counterexamples -/

/-- A concrete instance of the `url` crate interface covering the absolute
`https` URLs the concrete examples use: parsing such a URL renders it back
unchanged, an absolute href resolves to itself regardless of the base (WHATWG
behaviour), other hrefs fail to resolve, and the host is the authority
component between the scheme and the first slash. -/
def tinyUrlLib : UrlLib where
  parse s := if startsWithSeq ("https://").data s.data then some s else none
  join _ href := if startsWithSeq ("https://").data href.data then some href else none
  host s :=
    if startsWithSeq ("https://").data s.data then
      some ⟨(s.data.drop 8).takeWhile (fun c => c ≠ '/')⟩
    else none

def demoCfg : CrawlerConfig := ⟨3, 2, 30⟩

def seedUrl : String := "https://developer.apple.com/documentation/swift"

def evilUrl : String := "https://evil.com/developer.apple.com"

def goodUrl : String := "https://developer.apple.com/documentation/uikit"

/-- A seed document: one `h1`, one `article`, three absolute links — one on a
foreign host whose string contains the crawl-domain substring, one in-domain,
one filtered out. -/
def demoDoc : HtmlDoc :=
  ⟨["  Swift   docs  "], ["  Hello   world  \n\n  Foo  "],
    [evilUrl, goodUrl, "https://example.org/elsewhere"]⟩

/-- A leaf document with no links. -/
def leafDoc : HtmlDoc := ⟨["Leaf"], ["body"], []⟩

/-- A concrete network: the seed succeeds on the first attempt, the foreign
host fails a retried attempt and then a second attempt past the time ceiling,
everything else succeeds with the leaf document. -/
def demoNet : String → List Attempt := fun u =>
  if u = seedUrl then [(1, .ok demoDoc)]
  else if u = evilUrl then [(2, .error ("connection refused")), (40, .error ("timeout"))]
  else [(1, .ok leafDoc)]

/-- The identity completion order. -/
def demoSched : Nat → List String → List String := fun _ xs => xs

/-- The page `fetch_page` extracts from `demoDoc` at the seed URL. -/
def demoPage : DocPage :=
  ⟨"Swift docs", "Hello world\nFoo", seedUrl, [evilUrl, goodUrl]⟩

/-- The page extracted from `leafDoc` at the in-domain link. -/
def leafPage : DocPage := ⟨"Leaf", "body", goodUrl, []⟩

/-! ### C2 — tryClaim yields true then false -/

/-- Claim C2: for every registry state and URL `u` not previously claimed,
claiming `u` twice in sequence yields `true` the first time, marking `u`
claimed, and `false` the second time, the second call leaving the registry
unchanged. -/
theorem tryClaim_true_then_false (v : List String) (u : String) (h : u ∉ v) :
    tryClaim v u = (true, u :: v)
    ∧ (tryClaim v u).2.contains u = true
    ∧ tryClaim (tryClaim v u).2 u = (false, (tryClaim v u).2) := by
  simp [tryClaim, h]

/-- Witness for C2 at a concrete registry and URL. -/
theorem tryClaim_true_then_false_witness :
    ("u" ∉ (["w"] : List String))
    ∧ (tryClaim ["w"] "u" = (true, ["u", "w"])
      ∧ (tryClaim ["w"] "u").2.contains ("u") = true
      ∧ tryClaim (tryClaim ["w"] "u").2 "u" = (false, (tryClaim ["w"] "u").2)) :=
  ⟨by decide, tryClaim_true_then_false ["w"] "u" (by decide)⟩

/-! ### C7 — text normalization -/

/-- The normalization pipeline in the spec's stages: split on line boundaries,
collapse each line's whitespace runs to single spaces (a line's leading and
trailing runs collapse away, as the spec's own example fixes), drop lines that
became empty, rejoin with single newlines, trim the whole result. -/
def normalizePipeline (s : String) : String :=
  let lines := splitLines s.data
  let collapsed := lines.map (fun l => joinSep [' '] (wordsSeq l))
  let kept := collapsed.filter (fun l => !l.isEmpty)
  ⟨trimSeq (joinSep ['\n'] kept)⟩

/-- Claim C7: `clean_text` is the spec's normalization pipeline, and on the
spec's example `"  Hello   world  \n\n  Foo  "` it yields
`"Hello world\nFoo"`; further inputs exercise tab/carriage-return collapsing
and the all-whitespace case. -/
theorem clean_text_normalization :
    (∀ s, clean_text s = normalizePipeline s)
    ∧ clean_text ("  Hello   world  \n\n  Foo  ") = "Hello world\nFoo"
    ∧ clean_text ("a\t\tb\r\n c ") = "a b\nc"
    ∧ clean_text ("  \n \t \n") = ""
    ∧ clean_text (" x \n\n\n y ") = "x\ny" :=
  ⟨fun _ => rfl, by decide, by decide, by decide, by decide⟩

/-! ### C3 — the related-links domain invariant -/

/-- Claim C3, counterexample: the link filter in `fetch_page` is a substring
test, not a host comparison.  Extracting `demoDoc` at the seed URL succeeds
and puts `https://evil.com/developer.apple.com` — whose host is `evil.com`,
not the crawl domain — into `related_links`, and the recursive crawl then
fetches it. -/
theorem related_links_host_counterexample :
    extract tinyUrlLib seedUrl demoDoc = some demoPage
    ∧ evilUrl ∈ demoPage.related_links
    ∧ tinyUrlLib.host evilUrl = some ("evil.com")
    ∧ tinyUrlLib.host evilUrl ≠ some ("developer.apple.com")
    ∧ evilUrl ∈ (crawl_url tinyUrlLib demoCfg demoNet demoSched [] seedUrl true).fetched :=
  ⟨rfl, by decide, by decide, by decide, by decide⟩

/-- A successful extraction has a parseable `url`, and each of its related
links is the successful resolution of some href of the document, kept only
when its string contains the crawl-domain substring. -/
theorem extract_links_substring (L : UrlLib) (url : String)
    (doc : HtmlDoc) (page : DocPage) (h : extract L url doc = some page) :
    (L.parse page.url).isSome = true
    ∧ ∀ l ∈ page.related_links,
        hasSubSeq appleDomain l.data = true
        ∧ ∃ href ∈ doc.hrefs, L.join url href = some l := by
  unfold extract at h
  cases hp : L.parse url with
  | none => rw [hp] at h; cases h
  | some s =>
    rw [hp] at h
    simp only [Option.some.injEq] at h
    subst h
    refine ⟨by simp [hp], ?_⟩
    intro l hl
    obtain ⟨hmem, hsub⟩ := List.mem_filter.mp hl
    obtain ⟨href, hh, hj⟩ := List.mem_filterMap.mp hmem
    exact ⟨hsub, href, hh, hj⟩

/-! ### Fan-out invariants -/

/-- The fan-out never removes registry entries. -/
theorem fanout_visited_mono (L : UrlLib) (cfg : CrawlerConfig)
    (net : String → List Attempt) :
    ∀ (ls v : List String) (x : String),
      x ∈ v → x ∈ (fanout L cfg net v ls).visited := by
  intro ls
  induction ls with
  | nil => intro v x hx; simpa [fanout] using hx
  | cons link rest ih =>
    intro v x hx
    by_cases h : link ∈ v
    · simpa [fanout, h] using ih v x hx
    · cases hfp : fetch_page L cfg net link with
      | ok page =>
        simpa [fanout, h, hfp] using ih (link :: v) x (List.mem_cons_of_mem _ hx)
      | error e =>
        simpa [fanout, h, hfp] using ih (link :: v) x (List.mem_cons_of_mem _ hx)

/-- The fan-out only fetches URLs that were not already in the registry. -/
theorem fanout_fetched_fresh (L : UrlLib) (cfg : CrawlerConfig)
    (net : String → List Attempt) :
    ∀ (ls v : List String) (x : String),
      x ∈ (fanout L cfg net v ls).fetched → x ∉ v := by
  intro ls
  induction ls with
  | nil => intro v x hx; simp [fanout] at hx
  | cons link rest ih =>
    intro v x hx
    by_cases h : link ∈ v
    · exact ih v x (by simpa [fanout, h] using hx)
    · cases hfp : fetch_page L cfg net link with
      | ok page =>
        simp only [fanout, h, if_false, hfp] at hx
        rcases List.mem_cons.mp hx with rfl | hx'
        · exact h
        · intro hv
          exact ih (link :: v) x hx' (List.mem_cons_of_mem _ hv)
      | error e =>
        simp only [fanout, h, if_false, hfp] at hx
        rcases List.mem_cons.mp hx with rfl | hx'
        · exact h
        · intro hv
          exact ih (link :: v) x hx' (List.mem_cons_of_mem _ hv)

/-- Every URL the fan-out fetches ends up in the final registry. -/
theorem fanout_fetched_visited (L : UrlLib) (cfg : CrawlerConfig)
    (net : String → List Attempt) :
    ∀ (ls v : List String) (x : String),
      x ∈ (fanout L cfg net v ls).fetched → x ∈ (fanout L cfg net v ls).visited := by
  intro ls
  induction ls with
  | nil => intro v x hx; simp [fanout] at hx
  | cons link rest ih =>
    intro v x hx
    by_cases h : link ∈ v
    · simp only [fanout, h, if_true] at hx ⊢
      exact ih v x hx
    · cases hfp : fetch_page L cfg net link with
      | ok page =>
        simp only [fanout, h, if_false, hfp] at hx ⊢
        rcases List.mem_cons.mp hx with rfl | hx'
        · exact fanout_visited_mono L cfg net rest (x :: v) x (List.mem_cons_self x v)
        · exact ih (link :: v) x hx'
      | error e =>
        simp only [fanout, h, if_false, hfp] at hx ⊢
        rcases List.mem_cons.mp hx with rfl | hx'
        · exact fanout_visited_mono L cfg net rest (x :: v) x (List.mem_cons_self x v)
        · exact ih (link :: v) x hx'

/-- The fan-out fetches each URL at most once. -/
theorem fanout_fetched_nodup (L : UrlLib) (cfg : CrawlerConfig)
    (net : String → List Attempt) :
    ∀ (ls v : List String), (fanout L cfg net v ls).fetched.Nodup := by
  intro ls
  induction ls with
  | nil => intro v; simp [fanout]
  | cons link rest ih =>
    intro v
    by_cases h : link ∈ v
    · simpa [fanout, h] using ih v
    · cases hfp : fetch_page L cfg net link with
      | ok page =>
        simp only [fanout, h, if_false, hfp]
        refine List.nodup_cons.mpr ⟨fun hmem => ?_, ih (link :: v)⟩
        exact fanout_fetched_fresh L cfg net rest (link :: v) link hmem
          (List.mem_cons_self link v)
      | error e =>
        simp only [fanout, h, if_false, hfp]
        refine List.nodup_cons.mpr ⟨fun hmem => ?_, ih (link :: v)⟩
        exact fanout_fetched_fresh L cfg net rest (link :: v) link hmem
          (List.mem_cons_self link v)

/-- The fan-out fetches only URLs drawn from its list of candidate links. -/
theorem fanout_fetched_sub (L : UrlLib) (cfg : CrawlerConfig)
    (net : String → List Attempt) :
    ∀ (ls v : List String) (x : String),
      x ∈ (fanout L cfg net v ls).fetched → x ∈ ls := by
  intro ls
  induction ls with
  | nil => intro v x hx; simp [fanout] at hx
  | cons link rest ih =>
    intro v x hx
    by_cases h : link ∈ v
    · simp only [fanout, h, if_true] at hx
      exact List.mem_cons_of_mem _ (ih v x hx)
    · cases hfp : fetch_page L cfg net link with
      | ok page =>
        simp only [fanout, h, if_false, hfp] at hx
        rcases List.mem_cons.mp hx with rfl | hx'
        · exact List.mem_cons_self _ _
        · exact List.mem_cons_of_mem _ (ih (link :: v) x hx')
      | error e =>
        simp only [fanout, h, if_false, hfp] at hx
        rcases List.mem_cons.mp hx with rfl | hx'
        · exact List.mem_cons_self _ _
        · exact List.mem_cons_of_mem _ (ih (link :: v) x hx')

/-- Each fetch contributes at most one page. -/
theorem fanout_pages_le (L : UrlLib) (cfg : CrawlerConfig)
    (net : String → List Attempt) :
    ∀ (ls v : List String),
      (fanout L cfg net v ls).pages.length ≤ (fanout L cfg net v ls).fetched.length := by
  intro ls
  induction ls with
  | nil => intro v; simp [fanout]
  | cons link rest ih =>
    intro v
    by_cases h : link ∈ v
    · simpa [fanout, h] using ih v
    · cases hfp : fetch_page L cfg net link with
      | ok page =>
        simp only [fanout, h, if_false, hfp, List.length_cons]
        exact Nat.succ_le_succ (ih (link :: v))
      | error e =>
        simp only [fanout, h, if_false, hfp, List.length_cons]
        exact Nat.le_succ_of_le (ih (link :: v))

/-! ### Crawl-level fetch invariants -/

/-- A crawl invocation only fetches URLs that were not already claimed. -/
theorem crawl_fetched_fresh (L : UrlLib) (cfg : CrawlerConfig)
    (net : String → List Attempt) (sched : Nat → List String → List String)
    (v : List String) (u : String) (r : Bool) (x : String)
    (hx : x ∈ (crawl_url L cfg net sched v u r).fetched) : x ∉ v := by
  unfold crawl_url at hx
  by_cases h : u ∈ v
  · simp [h] at hx
  · cases hfp : fetch_page L cfg net u with
    | error e =>
      simp only [h, if_false, hfp] at hx
      rcases List.mem_singleton.mp hx with rfl
      exact h
    | ok page =>
      cases r with
      | false =>
        simp only [h, if_false, hfp, Bool.false_eq_true] at hx
        rcases List.mem_singleton.mp hx with rfl
        exact h
      | true =>
        simp only [h, if_false, hfp, if_true] at hx
        rcases List.mem_cons.mp hx with rfl | hx'
        · exact h
        · intro hv
          exact fanout_fetched_fresh L cfg net _ (u :: v) x hx'
            (List.mem_cons_of_mem _ hv)

/-- Every URL a crawl invocation fetches is in its final registry. -/
theorem crawl_fetched_visited (L : UrlLib) (cfg : CrawlerConfig)
    (net : String → List Attempt) (sched : Nat → List String → List String)
    (v : List String) (u : String) (r : Bool) (x : String)
    (hx : x ∈ (crawl_url L cfg net sched v u r).fetched) :
    x ∈ (crawl_url L cfg net sched v u r).visited := by
  unfold crawl_url at hx ⊢
  by_cases h : u ∈ v
  · simp [h] at hx
  · cases hfp : fetch_page L cfg net u with
    | error e =>
      simp only [h, if_false, hfp] at hx ⊢
      rcases List.mem_singleton.mp hx with rfl
      exact List.mem_cons_self _ _
    | ok page =>
      cases r with
      | false =>
        simp only [h, if_false, hfp, Bool.false_eq_true] at hx ⊢
        rcases List.mem_singleton.mp hx with rfl
        exact List.mem_cons_self _ _
      | true =>
        simp only [h, if_false, hfp, if_true] at hx ⊢
        rcases List.mem_cons.mp hx with rfl | hx'
        · exact fanout_visited_mono L cfg net _ (x :: v) x (List.mem_cons_self x v)
        · exact fanout_fetched_visited L cfg net _ (u :: v) x hx'

/-- A crawl invocation fetches each URL at most once. -/
theorem crawl_fetched_nodup (L : UrlLib) (cfg : CrawlerConfig)
    (net : String → List Attempt) (sched : Nat → List String → List String)
    (v : List String) (u : String) (r : Bool) :
    (crawl_url L cfg net sched v u r).fetched.Nodup := by
  unfold crawl_url
  by_cases h : u ∈ v
  · simp [h]
  · cases hfp : fetch_page L cfg net u with
    | error e => simp [h, hfp]
    | ok page =>
      cases r with
      | false => simp [h, hfp]
      | true =>
        simp only [h, if_false, hfp, if_true]
        refine List.nodup_cons.mpr ⟨fun hmem => ?_, fanout_fetched_nodup L cfg net _ _⟩
        exact fanout_fetched_fresh L cfg net _ (u :: v) u hmem (List.mem_cons_self u v)

/-! ### C1 — exclusive claiming, no double fetch -/

/-- Racers arriving after `u` is claimed all observe `false` and leave the
registry unchanged. -/
theorem claimRace_after_claim (u : String) :
    ∀ (n : Nat) (v : List String), u ∈ v →
      (claimRace v (List.replicate n u)).1.count true = 0
      ∧ (claimRace v (List.replicate n u)).2 = v := by
  intro n
  induction n with
  | zero => intro v _; simp [claimRace]
  | succ m ih =>
    intro v hv
    have ht : tryClaim v u = (false, v) := by simp [tryClaim, hv]
    simp only [List.replicate_succ, claimRace, ht]
    obtain ⟨h1, h2⟩ := ih v hv
    cases hcr : claimRace v (List.replicate m u) with
    | mk bs v' =>
      rw [hcr] at h1 h2
      simp only [List.count_cons] at *
      simp [h1, h2]

/-- Claim C1: under any serialisation of `n ≥ 1` tasks racing the atomic
claim of the same unclaimed URL `u`, exactly one observes `u` as unclaimed;
and across two successive crawl invocations sharing one registry, no URL is
ever fetched twice. -/
theorem claim_race_exclusive_and_no_double_fetch
    (v₀ : List String) (u : String) (n : Nat) (hu : u ∉ v₀) (hn : 1 ≤ n)
    (L : UrlLib) (cfg : CrawlerConfig) (net : String → List Attempt)
    (sched : Nat → List String → List String) (v : List String)
    (u₁ u₂ : String) (r₁ r₂ : Bool) :
    (claimRace v₀ (List.replicate n u)).1.count true = 1
    ∧ ((crawl_url L cfg net sched v u₁ r₁).fetched ++
        (crawl_url L cfg net sched
          (crawl_url L cfg net sched v u₁ r₁).visited u₂ r₂).fetched).Nodup := by
  constructor
  · obtain ⟨m, rfl⟩ : ∃ m, n = m + 1 := ⟨n - 1, (Nat.succ_pred_eq_of_pos hn).symm⟩
    have ht : tryClaim v₀ u = (true, u :: v₀) := by simp [tryClaim, hu]
    simp only [List.replicate_succ, claimRace, ht]
    obtain ⟨h1, -⟩ := claimRace_after_claim u m (u :: v₀) (List.mem_cons_self u v₀)
    cases hcr : claimRace (u :: v₀) (List.replicate m u) with
    | mk bs v' =>
      rw [hcr] at h1
      simp [List.count_cons, h1]
  · refine List.Nodup.append (crawl_fetched_nodup L cfg net sched v u₁ r₁)
      (crawl_fetched_nodup L cfg net sched _ u₂ r₂) ?_
    intro x hx₁ hx₂
    exact crawl_fetched_fresh L cfg net sched _ u₂ r₂ x hx₂
      (crawl_fetched_visited L cfg net sched v u₁ r₁ x hx₁)

/-- Witness for C1: three racers on a fresh URL, and the two demo crawl
invocations. -/
theorem claim_race_exclusive_and_no_double_fetch_witness :
    ("u" ∉ ([] : List String)) ∧ 1 ≤ 3
    ∧ ((claimRace [] (List.replicate 3 "u")).1.count true = 1
      ∧ ((crawl_url tinyUrlLib demoCfg demoNet demoSched [] seedUrl true).fetched ++
          (crawl_url tinyUrlLib demoCfg demoNet demoSched
            (crawl_url tinyUrlLib demoCfg demoNet demoSched [] seedUrl true).visited
            goodUrl false).fetched).Nodup) :=
  ⟨by decide, by decide,
    claim_race_exclusive_and_no_double_fetch [] "u" 3 (by decide) (by decide)
      tinyUrlLib demoCfg demoNet demoSched [] seedUrl goodUrl true false⟩

/-! ### C4 — seed failure fatal, descendant failure tolerated -/

/-- Claim C4: when the seed's fetch fails, `crawl_url` propagates the error —
no partial result; when the seed's fetch succeeds, the recursive call returns
`Ok` with the seed first, whatever happens to the descendants; and at the
fan-out, a link whose fetch fails contributes zero pages while the batch
continues unchanged. -/
theorem seed_fatal_descendant_tolerated (L : UrlLib) (cfg : CrawlerConfig)
    (net : String → List Attempt) (sched : Nat → List String → List String)
    (v : List String) (u : String) (r : Bool) (hu : u ∉ v) :
    (∀ e, fetch_page L cfg net u = .error e →
      crawl_url L cfg net sched v u r = ⟨.error e, u :: v, [u]⟩)
    ∧ (∀ page, fetch_page L cfg net u = .ok page →
      ∃ rest, (crawl_url L cfg net sched v u true).result = .ok (page :: rest))
    ∧ (∀ (w : List String) (link : String) (rest : List String) (e : String),
      link ∉ w → fetch_page L cfg net link = .error e →
      (fanout L cfg net w (link :: rest)).pages = (fanout L cfg net (link :: w) rest).pages
      ∧ (fanout L cfg net w (link :: rest)).visited
          = (fanout L cfg net (link :: w) rest).visited) := by
  refine ⟨fun e he => ?_, fun page hp => ?_, fun w link rest e hw he => ?_⟩
  · simp [crawl_url, hu, he]
  · refine ⟨(fanout L cfg net (u :: v) (sched cfg.concurrency page.related_links)).pages, ?_⟩
    simp [crawl_url, hu, hp]
  · constructor <;> simp [fanout, hw, he]

/-- Witness for C4 at the demo environment: the foreign-host link's fetch
fails past the time budget, the seed succeeds. -/
theorem seed_fatal_descendant_tolerated_witness :
    (seedUrl ∉ ([] : List String))
    ∧ ((∀ e, fetch_page tinyUrlLib demoCfg demoNet seedUrl = .error e →
        crawl_url tinyUrlLib demoCfg demoNet demoSched [] seedUrl true
          = ⟨.error e, seedUrl :: [], [seedUrl]⟩)
      ∧ (∀ page, fetch_page tinyUrlLib demoCfg demoNet seedUrl = .ok page →
        ∃ rest,
          (crawl_url tinyUrlLib demoCfg demoNet demoSched [] seedUrl true).result
            = .ok (page :: rest))
      ∧ (∀ (w : List String) (link : String) (rest : List String) (e : String),
        link ∉ w → fetch_page tinyUrlLib demoCfg demoNet link = .error e →
        (fanout tinyUrlLib demoCfg demoNet w (link :: rest)).pages
            = (fanout tinyUrlLib demoCfg demoNet (link :: w) rest).pages
        ∧ (fanout tinyUrlLib demoCfg demoNet w (link :: rest)).visited
            = (fanout tinyUrlLib demoCfg demoNet (link :: w) rest).visited)) :=
  ⟨by decide,
    seed_fatal_descendant_tolerated tinyUrlLib demoCfg demoNet demoSched [] seedUrl true
      (by decide)⟩

/-! ### C5 — seed first, bounded by the distinct links -/

/-- A duplicate-free list drawn from `l` is no longer than `l`'s
deduplication. -/
theorem length_le_dedup_of_nodup_sub (d l : List String) (hd : d.Nodup)
    (hsub : ∀ x ∈ d, x ∈ l) : d.length ≤ l.dedup.length := by
  calc d.length = d.toFinset.card := (List.toFinset_card_of_nodup hd).symm
    _ ≤ l.toFinset.card := Finset.card_le_card (fun x hx => by
        rw [List.mem_toFinset] at hx ⊢
        exact hsub x hx)
    _ = l.dedup.length := List.card_toFinset l

/-- Claim C5: when the seed fetch succeeds, the recursive crawl returns `Ok`
with the seed page first, and — for every completion order that is a
permutation of the extracted links — the total length is at most one plus the
number of distinct links extracted from the seed page. -/
theorem crawl_recursive_seed_first_length_bound (L : UrlLib)
    (cfg : CrawlerConfig) (net : String → List Attempt)
    (sched : Nat → List String → List String) (v : List String) (u : String)
    (page : DocPage) (hu : u ∉ v) (hp : fetch_page L cfg net u = .ok page)
    (hs : ∀ (k : Nat) (xs : List String), (sched k xs).Perm xs) :
    ∃ rest, (crawl_url L cfg net sched v u true).result = .ok (page :: rest)
      ∧ (page :: rest).length ≤ 1 + page.related_links.dedup.length := by
  refine ⟨(fanout L cfg net (u :: v) (sched cfg.concurrency page.related_links)).pages,
    by simp [crawl_url, hu, hp], ?_⟩
  rw [List.length_cons, Nat.add_comm 1]
  refine Nat.succ_le_succ ?_
  set ls := sched cfg.concurrency page.related_links with hls
  calc (fanout L cfg net (u :: v) ls).pages.length
      ≤ (fanout L cfg net (u :: v) ls).fetched.length := fanout_pages_le L cfg net ls (u :: v)
    _ ≤ ls.dedup.length :=
        length_le_dedup_of_nodup_sub _ ls (fanout_fetched_nodup L cfg net ls (u :: v))
          (fanout_fetched_sub L cfg net ls (u :: v))
    _ = page.related_links.dedup.length :=
        ((hs cfg.concurrency page.related_links).dedup).length_eq

/-- Witness for C5 at the demo environment. -/
theorem crawl_recursive_seed_first_length_bound_witness :
    (seedUrl ∉ ([] : List String))
    ∧ fetch_page tinyUrlLib demoCfg demoNet seedUrl = .ok demoPage
    ∧ (∀ (k : Nat) (xs : List String), (demoSched k xs).Perm xs)
    ∧ ∃ rest,
        (crawl_url tinyUrlLib demoCfg demoNet demoSched [] seedUrl true).result
          = .ok (demoPage :: rest)
        ∧ (demoPage :: rest).length ≤ 1 + demoPage.related_links.dedup.length :=
  ⟨by decide, rfl, fun _ xs => List.Perm.refl xs,
    crawl_recursive_seed_first_length_bound tinyUrlLib demoCfg demoNet demoSched []
      seedUrl demoPage (by decide) rfl (fun _ xs => List.Perm.refl xs)⟩

/-! ### C6 — non-recursive crawl -/

/-- A successful `fetch_page` stamps the requested URL into the page. -/
theorem fetch_page_url (L : UrlLib) (cfg : CrawlerConfig)
    (net : String → List Attempt) (u : String) (p : DocPage)
    (h : fetch_page L cfg net u = .ok p) : p.url = u := by
  unfold fetch_page at h
  split at h
  · cases h
  · split at h
    · cases h
      rename_i doc hr q he
      unfold extract at he
      split at he
      · cases he
      · simp only [Option.some.injEq] at he
        rw [← he]
    · cases h

/-- Claim C6: a non-recursive crawl of an already-claimed seed returns `Ok`
with the empty list (idempotent re-entry, not an error); and whenever a
non-recursive crawl returns `Ok ps`, `ps` has length at most one and contains
the seed's page exactly when the seed was not already claimed. -/
theorem crawl_nonrecursive_at_most_one (L : UrlLib) (cfg : CrawlerConfig)
    (net : String → List Attempt) (sched : Nat → List String → List String)
    (v : List String) (u : String) :
    (u ∈ v → crawl_url L cfg net sched v u false = ⟨.ok [], v, []⟩)
    ∧ (∀ ps w f, crawl_url L cfg net sched v u false = ⟨.ok ps, w, f⟩ →
      ps.length ≤ 1 ∧ ((∃ p ∈ ps, p.url = u) ↔ u ∉ v)) := by
  constructor
  · intro h; simp [crawl_url, h]
  · intro ps w f h
    by_cases hv : u ∈ v
    · simp only [crawl_url, hv, if_true, CrawlRes.mk.injEq, Except.ok.injEq] at h
      obtain ⟨rfl, -, -⟩ := h
      simp [hv]
    · cases hfp : fetch_page L cfg net u with
      | error e =>
        simp [crawl_url, hv, hfp] at h
      | ok page =>
        simp only [crawl_url, hv, if_false, hfp, Bool.false_eq_true,
          CrawlRes.mk.injEq, Except.ok.injEq] at h
        obtain ⟨rfl, -, -⟩ := h
        refine ⟨by simp, ?_⟩
        have : page.url = u := fetch_page_url L cfg net u page hfp
        simp [this, hv]

/-- Witness for C6: the already-claimed branch at a concrete registry. -/
theorem crawl_nonrecursive_at_most_one_witness :
    ((seedUrl ∈ [seedUrl] →
      crawl_url tinyUrlLib demoCfg demoNet demoSched [seedUrl] seedUrl false
        = ⟨.ok [], [seedUrl], []⟩)
    ∧ (∀ ps w f,
      crawl_url tinyUrlLib demoCfg demoNet demoSched [seedUrl] seedUrl false
        = ⟨.ok ps, w, f⟩ →
      ps.length ≤ 1 ∧ ((∃ p ∈ ps, p.url = seedUrl) ↔ seedUrl ∉ [seedUrl]))) :=
  crawl_nonrecursive_at_most_one tinyUrlLib demoCfg demoNet demoSched [seedUrl] seedUrl

/-! ### C8 — retry bounded by a wall-clock budget -/

/-- Unfolding `retry` at a failed attempt followed by further attempts. -/
theorem retry_cons_error_cons (ceiling t : Nat) (e : String) (a : Attempt)
    (as : List Attempt) :
    retry ceiling ((t, .error e) :: a :: as)
      = if ceiling < t then .error e else retry ceiling (a :: as) := rfl

/-- `retry` skips over any number of failed attempts that finished within the
time ceiling. -/
theorem retry_skip_failures (ceiling : Nat) (tail : List Attempt)
    (htail : tail ≠ []) :
    ∀ pre : List Attempt, (∀ a ∈ pre, a.1 ≤ ceiling ∧ ∃ e, a.2 = .error e) →
      retry ceiling (pre ++ tail) = retry ceiling tail := by
  intro pre
  induction pre with
  | nil => intro _; rfl
  | cons a pre ih =>
    intro hpre
    obtain ⟨ht, e₀, he₀⟩ := hpre a (List.mem_cons_self a pre)
    obtain ⟨t₀, r₀⟩ := a
    dsimp only at ht he₀
    subst he₀
    have hne : pre ++ tail ≠ [] := fun hc => htail (List.append_eq_nil.mp hc).2
    cases hl : pre ++ tail with
    | nil => exact absurd hl hne
    | cons b bs =>
      rw [List.cons_append, hl, retry_cons_error_cons, if_neg (Nat.not_lt.mpr ht), ← hl]
      exact ih (fun x hx => hpre x (List.mem_cons_of_mem _ hx))

/-- Claim C8: the fetcher retries every failed attempt that finished within
the wall-clock ceiling — however many there are, there is no attempt-count
ceiling; a successful attempt short-circuits whatever would follow; a failure
past the ceiling ends the operation with that last cause; and `fetch_page`
surfaces the exhausted retry's cause as its error. -/
theorem retry_time_budget_policy (ceiling : Nat) :
    (∀ (pre : List Attempt) (t : Nat) (d : HtmlDoc) (rest : List Attempt),
      (∀ a ∈ pre, a.1 ≤ ceiling ∧ ∃ e, a.2 = .error e) →
      retry ceiling (pre ++ (t, .ok d) :: rest) = .ok d)
    ∧ (∀ (pre : List Attempt) (t : Nat) (e : String) (rest : List Attempt),
      (∀ a ∈ pre, a.1 ≤ ceiling ∧ ∃ e', a.2 = .error e') →
      ceiling < t → retry ceiling (pre ++ (t, .error e) :: rest) = .error e)
    ∧ (∀ (L : UrlLib) (cfg : CrawlerConfig) (net : String → List Attempt)
        (url : String) (e : String), retry cfg.timeout (net url) = .error e →
        fetch_page L cfg net url = .error e) := by
  refine ⟨fun pre t d rest hpre => ?_, fun pre t e rest hpre ht => ?_,
    fun L cfg net url e he => ?_⟩
  · rw [retry_skip_failures ceiling ((t, .ok d) :: rest) (by simp) pre hpre]
    rfl
  · rw [retry_skip_failures ceiling ((t, .error e) :: rest) (by simp) pre hpre]
    cases rest with
    | nil => simp [retry, ht]
    | cons b bs => rw [retry_cons_error_cons, if_pos ht]
  · simp [fetch_page, he]

/-- Witness for C8: a concrete budget of 30 units — an over-budget second
failure gives up with the last cause, two under-budget failures before a
success still succeed, and the exhausted fetch of the foreign-host link
surfaces the cause. -/
theorem retry_time_budget_policy_witness :
    retry 30 [(2, .error ("connection refused")), (40, .error ("timeout"))] = .error ("timeout")
    ∧ retry 30 [(2, .error ("connection refused")), (10, .error ("reset")),
        (15, .ok leafDoc)] = .ok leafDoc
    ∧ fetch_page tinyUrlLib demoCfg demoNet evilUrl = .error ("timeout") := by
  refine ⟨?_, ?_, ?_⟩
  · exact (retry_time_budget_policy 30).2.1 [(2, .error ("connection refused"))] 40
      "timeout" []
      (fun a ha => by
        rcases List.mem_singleton.mp ha with rfl
        exact ⟨by decide, "connection refused", rfl⟩)
      (by decide)
  · exact (retry_time_budget_policy 30).1
      [(2, .error ("connection refused")), (10, .error ("reset"))] 15 leafDoc []
      (fun a ha => by
        rcases List.mem_cons.mp ha with rfl | ha'
        · exact ⟨by decide, "connection refused", rfl⟩
        · rcases List.mem_singleton.mp ha' with rfl
          exact ⟨by decide, "reset", rfl⟩)
  · exact (retry_time_budget_policy 30).2.2 tinyUrlLib demoCfg demoNet evilUrl
      "timeout" rfl

/-! ### C9 — max_retries is never read -/

/-- `fetch_page` reads the configuration only through its `timeout`. -/
theorem fetch_page_timeout_only (L : UrlLib) (net : String → List Attempt)
    (u : String) (c₁ c₂ : CrawlerConfig) (ht : c₁.timeout = c₂.timeout) :
    fetch_page L c₁ net u = fetch_page L c₂ net u := by
  unfold fetch_page
  rw [ht]

/-- The fan-out reads the configuration only through its `timeout`. -/
theorem fanout_timeout_only (L : UrlLib) (net : String → List Attempt)
    (c₁ c₂ : CrawlerConfig) (ht : c₁.timeout = c₂.timeout) :
    ∀ (ls v : List String), fanout L c₁ net v ls = fanout L c₂ net v ls := by
  intro ls
  induction ls with
  | nil => intro v; rfl
  | cons link rest ih =>
    intro v
    by_cases h : link ∈ v
    · simp [fanout, h, ih v]
    · simp only [fanout, h, if_false]
      rw [fetch_page_timeout_only L net link c₁ c₂ ht]
      cases fetch_page L c₂ net link <;> simp [ih (link :: v)]

/-- Claim C9: two configurations that agree on `concurrency` and `timeout` —
hence may differ arbitrarily in `max_retries` — make `fetch_page` and
`crawl_url` behave identically: `max_retries` is never read. -/
theorem max_retries_never_read (L : UrlLib) (net : String → List Attempt)
    (sched : Nat → List String → List String) (v : List String) (u : String)
    (r : Bool) (c₁ c₂ : CrawlerConfig) (hc : c₁.concurrency = c₂.concurrency)
    (ht : c₁.timeout = c₂.timeout) :
    fetch_page L c₁ net u = fetch_page L c₂ net u
    ∧ crawl_url L c₁ net sched v u r = crawl_url L c₂ net sched v u r := by
  refine ⟨fetch_page_timeout_only L net u c₁ c₂ ht, ?_⟩
  unfold crawl_url
  by_cases h : u ∈ v
  · simp [h]
  · simp only [h, if_false]
    rw [fetch_page_timeout_only L net u c₁ c₂ ht]
    cases fetch_page L c₂ net u with
    | error e => rfl
    | ok page =>
      cases r with
      | false => rfl
      | true => simp [hc, ht, fanout_timeout_only L net c₁ c₂ ht]

/-- Witness for C9: configurations differing only in `max_retries` (3 vs 99)
crawl identically. -/
theorem max_retries_never_read_witness :
    ((⟨3, 2, 30⟩ : CrawlerConfig).concurrency = (⟨99, 2, 30⟩ : CrawlerConfig).concurrency)
    ∧ ((⟨3, 2, 30⟩ : CrawlerConfig).timeout = (⟨99, 2, 30⟩ : CrawlerConfig).timeout)
    ∧ (fetch_page tinyUrlLib ⟨3, 2, 30⟩ demoNet seedUrl
        = fetch_page tinyUrlLib ⟨99, 2, 30⟩ demoNet seedUrl
      ∧ crawl_url tinyUrlLib ⟨3, 2, 30⟩ demoNet demoSched [] seedUrl true
        = crawl_url tinyUrlLib ⟨99, 2, 30⟩ demoNet demoSched [] seedUrl true) :=
  ⟨rfl, rfl,
    max_retries_never_read tinyUrlLib demoNet demoSched [] seedUrl true
      ⟨3, 2, 30⟩ ⟨99, 2, 30⟩ rfl rfl⟩

/-! ### C10 — a failed seed is never retried within a session -/

/-- Claim C10: when the seed fetch fails, the error propagates but the seed
stays claimed in the registry; consequently every subsequent invocation on a
registry containing the seed returns `Ok []` without fetching anything, so a
failed seed cannot be retried within the session. -/
theorem failed_seed_never_retried (L : UrlLib) (cfg : CrawlerConfig)
    (net : String → List Attempt) (sched : Nat → List String → List String)
    (v : List String) (u : String) (e : String) (r : Bool)
    (hu : u ∉ v) (hf : fetch_page L cfg net u = .error e) :
    crawl_url L cfg net sched v u r = ⟨.error e, u :: v, [u]⟩
    ∧ ∀ (L' : UrlLib) (cfg' : CrawlerConfig) (net' : String → List Attempt)
        (sched' : Nat → List String → List String) (v' : List String) (r' : Bool),
        u ∈ v' → crawl_url L' cfg' net' sched' v' u r' = ⟨.ok [], v', []⟩ :=
  ⟨by simp [crawl_url, hu, hf],
    fun L' cfg' net' sched' v' r' hv => by simp [crawl_url, hv]⟩

/-- Witness for C10: the foreign-host URL as a failing seed. -/
theorem failed_seed_never_retried_witness :
    (evilUrl ∉ ([] : List String))
    ∧ fetch_page tinyUrlLib demoCfg demoNet evilUrl = .error ("timeout")
    ∧ (crawl_url tinyUrlLib demoCfg demoNet demoSched [] evilUrl false
        = ⟨.error ("timeout"), evilUrl :: [], [evilUrl]⟩
      ∧ ∀ (L' : UrlLib) (cfg' : CrawlerConfig) (net' : String → List Attempt)
          (sched' : Nat → List String → List String) (v' : List String) (r' : Bool),
          evilUrl ∈ v' →
          crawl_url L' cfg' net' sched' v' evilUrl r' = ⟨.ok [], v', []⟩) :=
  ⟨by decide, rfl,
    failed_seed_never_retried tinyUrlLib demoCfg demoNet demoSched [] evilUrl
      "timeout" false (by decide) rfl⟩

/-! ### C3 (amended) — the substring filter governs links and fetches -/

/-- Every related link of a successfully fetched page contains the
crawl-domain substring. -/
theorem fetch_page_links_substring (L : UrlLib) (cfg : CrawlerConfig)
    (net : String → List Attempt) (u : String) (p : DocPage)
    (h : fetch_page L cfg net u = .ok p) :
    ∀ l ∈ p.related_links, hasSubSeq appleDomain l.data = true := by
  unfold fetch_page at h
  split at h
  · cases h
  · split at h
    · cases h
      rename_i doc hr q he
      intro l hl
      exact ((extract_links_substring L u doc _ he).2 l hl).1
    · cases h

/-- Claim C3 as amended: every `DocPage` a successful extraction produces has
a `url` the URL library accepts, and every element of `related_links` is the
successful resolution of some href of the page whose resulting URL string
contains the substring `"developer.apple.com"` — a resolved link failing that
substring test never appears in `related_links`; and, for every completion
order that is a permutation of the links, a recursive crawl fetches, besides
the seed itself, only URLs containing that substring — a link failing the
test is never fetched. -/
theorem related_links_substring_filter (L : UrlLib) (url : String)
    (doc : HtmlDoc) (page : DocPage) (h : extract L url doc = some page)
    (cfg : CrawlerConfig) (net : String → List Attempt)
    (sched : Nat → List String → List String) (v : List String) (u : String)
    (hs : ∀ (k : Nat) (xs : List String), (sched k xs).Perm xs) :
    ((L.parse page.url).isSome = true
      ∧ ∀ l ∈ page.related_links,
          hasSubSeq appleDomain l.data = true
          ∧ ∃ href ∈ doc.hrefs, L.join url href = some l)
    ∧ ∀ x ∈ (crawl_url L cfg net sched v u true).fetched, x ≠ u →
        hasSubSeq appleDomain x.data = true := by
  refine ⟨extract_links_substring L url doc page h, ?_⟩
  intro x hx hxu
  unfold crawl_url at hx
  by_cases hv : u ∈ v
  · simp [hv] at hx
  · cases hfp : fetch_page L cfg net u with
    | error e =>
      simp only [hv, if_false, hfp] at hx
      exact absurd (List.mem_singleton.mp hx) hxu
    | ok p =>
      simp only [hv, if_false, hfp, if_true] at hx
      rcases List.mem_cons.mp hx with rfl | hx'
      · exact absurd rfl hxu
      · have hls := fanout_fetched_sub L cfg net _ (u :: v) x hx'
        have hmem : x ∈ p.related_links :=
          ((hs cfg.concurrency p.related_links).mem_iff).mp hls
        exact fetch_page_links_substring L cfg net u p hfp x hmem

/-- Witness for the amended C3 at the concrete seed document and crawl. -/
theorem related_links_substring_filter_witness :
    extract tinyUrlLib seedUrl demoDoc = some demoPage
    ∧ (∀ (k : Nat) (xs : List String), (demoSched k xs).Perm xs)
    ∧ (((tinyUrlLib.parse demoPage.url).isSome = true
        ∧ ∀ l ∈ demoPage.related_links,
            hasSubSeq appleDomain l.data = true
            ∧ ∃ href ∈ demoDoc.hrefs, tinyUrlLib.join seedUrl href = some l)
      ∧ ∀ x ∈ (crawl_url tinyUrlLib demoCfg demoNet demoSched [] seedUrl true).fetched,
          x ≠ seedUrl → hasSubSeq appleDomain x.data = true) :=
  ⟨rfl, fun _ xs => List.Perm.refl xs,
    related_links_substring_filter tinyUrlLib seedUrl demoDoc demoPage rfl
      demoCfg demoNet demoSched [] seedUrl (fun _ xs => List.Perm.refl xs)⟩

end Adoc
